import Mathlib

/-!
Verification of the CppBinding reactive-value engine (src/main.cpp).

The engine is a graph of typed nodes: value nodes (TypedBindedValue) hold a
value, expression nodes (TypedBindedExpr) compute a value from input nodes.
We embed the engine shallowly: a graph state is a list of nodes indexed by
position, and the mutually recursive C++ member functions set / update / get
/ dispatch become a single fuel-indexed interpreter `run` over a command
type, so every definition is executable and kernel-reducible.

Machine integers of the demo are modelled as Int; comparison operators of
the stored type are modelled as explicit Boolean functions carried in a
context, since in C++ they are overloadable and `!=` need not be the
negation of `==`.
-/

namespace CppBinding

/-- BindingCompPolicy from src/main.cpp lines 9-15. -/
inductive BindingCompPolicy where
  | NotEqual
  | Equal
  | Always
  | Count
  deriving DecidableEq, Repr

/-- BindingEvalPolicy from src/main.cpp lines 17-22. -/
inductive BindingEvalPolicy where
  | Instant
  | Lazy
  | Count
  deriving DecidableEq, Repr

/-- Evaluation context: the value-initialized default of the stored type T
(the C++ member initializer `T m_value{}`), and the Boolean comparison
operators `!=` and `==` of T. -/
structure Ctx (V : Type) where
  dflt : V
  ne : V → V → Bool
  eq : V → V → Bool

/-- TypedBinding::different_with from src/main.cpp lines 56-75: NotEqual
uses `m_value != other`, Equal uses `!(m_value == other)`, Always and Count
(and the default branch) return true. -/
def different_with {V : Type} (ne eq : V → V → Bool)
    (pol : BindingCompPolicy) (stored other : V) : Bool :=
  match pol with
  | BindingCompPolicy.NotEqual => ne stored other
  | BindingCompPolicy.Equal => !(eq stored other)
  | BindingCompPolicy.Always => true
  | BindingCompPolicy.Count => true

/-- Kind of a node: a plain value node (TypedBindedValue adds no state to
TypedBinding), or an expression node (TypedBindedExpr) with its evaluation
policy, its function invoked positionally on the input values, the indices
of its input nodes (m_arguments, in order), and its dirty flag. -/
inductive NodeKind (V : Type) where
  | valueK : NodeKind V
  | exprK (ep : BindingEvalPolicy) (fn : List V → V) (args : List Nat)
      (dirty : Bool) : NodeKind V

/-- One TypedBinding object: m_value, m_comp_policy, m_refs (subscriber
list, in registration order), plus the derived-class state. -/
structure Node (V : Type) where
  value : V
  comp_policy : BindingCompPolicy
  refs : List Nat
  kind : NodeKind V

/-- Graph state: all nodes of the graph, indexed by position. -/
abbrev GState (V : Type) := List (Node V)

/-- Replace node i by g applied to it; out-of-range indices are untouched. -/
def modifyNode {V : Type} (s : GState V) (i : Nat) (g : Node V → Node V) :
    GState V :=
  match s[i]? with
  | some n => s.set i (g n)
  | none => s

/-- Write m_value of node i. -/
def writeValue {V : Type} (s : GState V) (i : Nat) (v : V) : GState V :=
  modifyNode s i (fun m => { m with value := v })

/-- Rewrite the dirty flag inside a node kind; value nodes have none. -/
def setDirtyK {V : Type} (k : NodeKind V) (b : Bool) : NodeKind V :=
  match k with
  | NodeKind.exprK ep fn args _ => NodeKind.exprK ep fn args b
  | NodeKind.valueK => NodeKind.valueK

/-- Write m_dirty of node i. -/
def writeDirty {V : Type} (s : GState V) (i : Nat) (b : Bool) : GState V :=
  modifyNode s i (fun m => { m with kind := setDirtyK m.kind b })

/-- Current m_value of node i, if the node exists. -/
def valueAt {V : Type} (s : GState V) (i : Nat) : Option V :=
  s[i]?.map Node.value

/-- Current m_value of node i, with a default for a missing node. -/
def getValueD {V : Type} (dflt : V) (s : GState V) (i : Nat) : V :=
  (valueAt s i).getD dflt

/-- Current m_dirty of node i, if node i is an expression node. -/
def dirtyAt {V : Type} (s : GState V) (i : Nat) : Option Bool :=
  s[i]?.bind (fun n =>
    match n.kind with
    | NodeKind.exprK _ _ _ d => some d
    | NodeKind.valueK => none)

/-- Structural skeleton of a node kind: everything except the dirty flag. -/
def skelOfKind {V : Type} (k : NodeKind V) :
    Option (BindingEvalPolicy × (List V → V) × List Nat) :=
  match k with
  | NodeKind.valueK => none
  | NodeKind.exprK ep fn args _ => some (ep, fn, args)

/-- Structural skeleton of a node: everything except m_value and m_dirty.
Operations of the engine never change the skeleton of any node. -/
structure NodeSkel (V : Type) where
  comp_policy : BindingCompPolicy
  refs : List Nat
  kindS : Option (BindingEvalPolicy × (List V → V) × List Nat)

/-- Skeleton of the node. -/
def skelOf {V : Type} (n : Node V) : NodeSkel V :=
  ⟨n.comp_policy, n.refs, skelOfKind n.kind⟩

/-- Skeleton of node i, if the node exists. -/
def skelAt {V : Type} (s : GState V) (i : Nat) : Option (NodeSkel V) :=
  s[i]?.map skelOf

/-- Evaluation policy of node i, if node i is an expression node. -/
def evalPolicyAt {V : Type} (s : GState V) (i : Nat) :
    Option BindingEvalPolicy :=
  ((skelAt s i).bind NodeSkel.kindS).map Prod.fst

/-- Input indices of node i; empty for value nodes and missing nodes. -/
def argsAt {V : Type} (s : GState V) (i : Nat) : List Nat :=
  (((skelAt s i).bind NodeSkel.kindS).map (fun p => p.2.2)).getD []

/-- Subscriber list of node i, if the node exists. -/
def refsAt {V : Type} (s : GState V) (i : Nat) : Option (List Nat) :=
  (skelAt s i).map NodeSkel.refs

/-- Commands of the interpreter, one per C++ entry point: setC i v is
node[i].set(v); updateC i is node[i].update(); getC i is node[i].get();
notifyC rs is the subscriber-notification loop inside set; argsC as is the
dispatch chain reading each input via get, in order. -/
inductive Cmd (V : Type) where
  | setC (i : Nat) (v : V)
  | updateC (i : Nat)
  | getC (i : Nat)
  | notifyC (rs : List Nat)
  | argsC (as : List Nat)

/-- Fuel-indexed interpreter for the mutually recursive member functions of
src/main.cpp. Fuel only bounds recursion depth (cyclic graphs would recurse
without bound in C++); every theorem below holds for every sufficient fuel.
The result list carries the values produced by getC and argsC.

setC (TypedBinding::set, lines 44-54): if different_with judges the new
value different, store it and run update() on every subscriber in order,
else do nothing.

updateC (TypedBindedExpr::update, lines 150-168; Binding::update, line 6,
is a no-op inherited by value nodes): Instant recomputes through set, Lazy
only raises the dirty flag, Count does nothing.

getC (TypedBinding::get, lines 39-42; TypedBindedExpr::get, lines 140-148):
a value node returns m_value; an expression node, when dirty, feeds
dispatch() through set, clears the flag, and returns the then-current
m_value, otherwise returns m_value.

argsC (TypedBindedExpr::dispatch, lines 170-192): read each input by its
own get(), left to right, threading the state. -/
def run {V : Type} (C : Ctx V) :
    Nat → Cmd V → GState V → List V × GState V
  | 0, _, s => ([C.dflt], s)
  | f + 1, Cmd.setC i v, s =>
    match s[i]? with
    | none => ([C.dflt], s)
    | some n =>
      if different_with C.ne C.eq n.comp_policy n.value v then
        run C f (Cmd.notifyC n.refs) (writeValue s i v)
      else ([C.dflt], s)
  | _ + 1, Cmd.notifyC [], s => ([C.dflt], s)
  | f + 1, Cmd.notifyC (r :: rs), s =>
    run C f (Cmd.notifyC rs) (run C f (Cmd.updateC r) s).2
  | f + 1, Cmd.updateC i, s =>
    match s[i]? with
    | none => ([C.dflt], s)
    | some n =>
      match n.kind with
      | NodeKind.valueK => ([C.dflt], s)
      | NodeKind.exprK ep fn args _ =>
        match ep with
        | BindingEvalPolicy.Instant =>
          let p := run C f (Cmd.argsC args) s
          run C f (Cmd.setC i (fn p.1)) p.2
        | BindingEvalPolicy.Lazy => ([C.dflt], writeDirty s i true)
        | BindingEvalPolicy.Count => ([C.dflt], s)
  | f + 1, Cmd.getC i, s =>
    match s[i]? with
    | none => ([C.dflt], s)
    | some n =>
      match n.kind with
      | NodeKind.valueK => ([n.value], s)
      | NodeKind.exprK _ fn args dirty =>
        if dirty then
          let p := run C f (Cmd.argsC args) s
          let s2 := (run C f (Cmd.setC i (fn p.1)) p.2).2
          let s3 := writeDirty s2 i false
          ([getValueD C.dflt s3 i], s3)
        else ([n.value], s)
  | _ + 1, Cmd.argsC [], s => ([], s)
  | f + 1, Cmd.argsC (a :: as), s =>
    let p := run C f (Cmd.getC a) s
    let q := run C f (Cmd.argsC as) p.2
    (p.1 ++ q.1, q.2)

/-- TypedBinding::set as a state transformer. -/
def set {V : Type} (C : Ctx V) (f : Nat) (s : GState V) (i : Nat) (v : V) :
    GState V :=
  (run C f (Cmd.setC i v) s).2

/-- Binding::update / TypedBindedExpr::update as a state transformer. -/
def update {V : Type} (C : Ctx V) (f : Nat) (s : GState V) (i : Nat) :
    GState V :=
  (run C f (Cmd.updateC i) s).2

/-- TypedBinding::get / TypedBindedExpr::get: returned value and resulting
state. -/
def get {V : Type} (C : Ctx V) (f : Nat) (s : GState V) (i : Nat) :
    V × GState V :=
  let p := run C f (Cmd.getC i) s
  (p.1.headD C.dflt, p.2)

/-- Fresh TypedBinding subobject: value-initialized m_value, default
NotEqual policy, empty subscriber list. -/
def newValueNode {V : Type} (C : Ctx V) : Node V :=
  ⟨C.dflt, BindingCompPolicy.NotEqual, [], NodeKind.valueK⟩

/-- TypedBindedValue constructor (src/main.cpp lines 90-93): append a fresh
node and route the initial value through set. The fresh node has no
subscribers, so only its own value can change. -/
def mkValue {V : Type} (C : Ctx V) (f : Nat) (s : GState V) (v : V) :
    GState V :=
  set C f (s ++ [newValueNode C]) s.length v

/-- Dirty-flag initialization of the TypedBindedExpr constructor, line 130:
m_dirty = m_eval_policy == Instant, with m_eval_policy still holding its
default member initializer Instant. -/
def ctorDirty (ep : BindingEvalPolicy) : Bool :=
  ep == BindingEvalPolicy.Instant

/-- Fresh TypedBindedExpr subobject before process_refs and update run. -/
def newExprNode {V : Type} (C : Ctx V) (fn : List V → V) (args : List Nat) :
    Node V :=
  ⟨C.dflt, BindingCompPolicy.NotEqual, [],
    NodeKind.exprK BindingEvalPolicy.Instant fn args
      (ctorDirty BindingEvalPolicy.Instant)⟩

/-- install_ref (line 195-198) folded over the inputs by
process_refs&lt;true&gt; (lines 206-212): push_back this node onto the
subscriber list of every input, in input order. -/
def installRefs {V : Type} (s : GState V) (args : List Nat) (i : Nat) :
    GState V :=
  args.foldl (fun st a =>
    modifyNode st a (fun m => { m with refs := m.refs ++ [i] })) s

/-- TypedBindedExpr constructor (src/main.cpp lines 126-133): append the
fresh node, register it with every input, then run update() once. -/
def mkExpr {V : Type} (C : Ctx V) (f : Nat) (s : GState V)
    (fn : List V → V) (args : List Nat) : GState V :=
  update C f (installRefs (s ++ [newExprNode C fn args]) args s.length)
    s.length

/-- Body of uninstall_ref (lines 200-204): m_refs.remove_if(ref == this)
removes every entry equal to the node being destroyed. -/
def removeRef (l : List Nat) (i : Nat) : List Nat :=
  l.filter (fun r => !(r == i))

/-- uninstall_ref applied to input a, removing node i from it. -/
def uninstall_ref {V : Type} (s : GState V) (i a : Nat) : GState V :=
  modifyNode s a (fun m => { m with refs := removeRef m.refs i })

/-- TypedBindedExpr destructor (lines 135-138): process_refs&lt;false&gt;
runs uninstall_ref on every input, in input order, before the input handles
are released. -/
def destructExpr {V : Type} (s : GState V) (i : Nat) : GState V :=
  (argsAt s i).foldl (fun st a => uninstall_ref st i a) s

/-- Direct mutation of m_eval_policy, as the demo does with
pe-&gt;m_eval_policy = Lazy (line 261). -/
def setEvalPolicy {V : Type} (s : GState V) (i : Nat)
    (ep : BindingEvalPolicy) : GState V :=
  modifyNode s i (fun m =>
    { m with kind :=
        match m.kind with
        | NodeKind.exprK _ fn args d => NodeKind.exprK ep fn args d
        | NodeKind.valueK => NodeKind.valueK })

/-! Concrete scenarios of the demo (src/main.cpp main, lines 248-282),
with V := Int, C++ int `!=` and `==`. -/

/-- Context for int-valued nodes: zero default, builtin comparisons. -/
def stdCtx : Ctx Int :=
  ⟨0, fun a b => decide (a ≠ b), fun a b => decide (a = b)⟩

/-- Binary plus combinator, as built by the operator+ sugar (lines
238-243), invoked positionally on the two input values. -/
def addFn : List Int → Int :=
  fun vs =>
    match vs with
    | [x, y] => x + y
    | _ => 0

/-- Lazy scenario, demo block 2 (lines 257-266): node 0 is a = 1. -/
def lzS1 : GState Int := mkValue stdCtx 8 [] 1

/-- Node 1 is b = 2. -/
def lzS2 : GState Int := mkValue stdCtx 8 lzS1 2

/-- Node 2 is e = a + b, freshly constructed (Instant policy). -/
def lzS3 : GState Int := mkExpr stdCtx 16 lzS2 addFn [0, 1]

/-- First read of e, the `int(e)` of line 262. -/
def lzRead1 : Int × GState Int := CppBinding.get stdCtx 16 lzS3 2

/-- State after the first read of e. -/
def lzS4 : GState Int := lzRead1.2

/-- Policy of e switched to Lazy, line 261. -/
def lzS5 : GState Int := setEvalPolicy lzS4 2 BindingEvalPolicy.Lazy

/-- State after a = 3 (line 263): e only raised its dirty flag. -/
def lzS6 : GState Int := CppBinding.set stdCtx 16 lzS5 0 3

/-- Second read of e, after the lazy invalidation. -/
def lzRead2 : Int × GState Int := CppBinding.get stdCtx 16 lzS6 2

/-- Diamond scenario, demo block 3 (lines 267-273): node 0 is a = 1. -/
def dmS1 : GState Int := mkValue stdCtx 8 [] 1

/-- Node 1 is b = 2. -/
def dmS2 : GState Int := mkValue stdCtx 8 dmS1 2

/-- Node 2 is c = 3. -/
def dmS3 : GState Int := mkValue stdCtx 8 dmS2 3

/-- Node 3 is ab = a + b. -/
def dmS4 : GState Int := mkExpr stdCtx 16 dmS3 addFn [0, 1]

/-- Node 4 is ac = a + c. -/
def dmS5 : GState Int := mkExpr stdCtx 16 dmS4 addFn [0, 2]

/-- Node 5 is e = ab + ac. -/
def dmS6 : GState Int := mkExpr stdCtx 24 dmS5 addFn [3, 4]

/-- Initial read of e (line 270). -/
def dmRead1 : Int × GState Int := CppBinding.get stdCtx 24 dmS6 5

/-- State after a = 5 (line 271): both branches recomputed eagerly. -/
def dmS7 : GState Int := CppBinding.set stdCtx 32 dmRead1.2 0 5

/-- Second read of e (line 272). -/
def dmRead2 : Int × GState Int := CppBinding.get stdCtx 24 dmS7 5

/-! Lemmas about modifyNode and the writers. -/

theorem length_modifyNode {V : Type} (s : GState V) (i : Nat)
    (g : Node V -> Node V) : (modifyNode s i g).length = s.length := by
  unfold modifyNode
  cases h : s[i]? with
  | none => rfl
  | some n => simp [List.length_set]

theorem getElem?_modifyNode_self {V : Type} (s : GState V) (i : Nat)
    (g : Node V -> Node V) (n : Node V) (h : s[i]? = some n) :
    (modifyNode s i g)[i]? = some (g n) := by
  unfold modifyNode
  rw [h]
  exact List.getElem?_set_self (List.getElem?_eq_some_iff.mp h).1

theorem getElem?_modifyNode_ne {V : Type} (s : GState V) (i j : Nat)
    (g : Node V -> Node V) (h : i ≠ j) :
    (modifyNode s i g)[j]? = s[j]? := by
  unfold modifyNode
  cases hg : s[i]? with
  | none => rfl
  | some n => exact List.getElem?_set_ne h

/-- Skeleton-preserving equivalence of graph states: same length, same
skeleton at every index. Values and dirty flags may differ. -/
def SkelEq {V : Type} (s t : GState V) : Prop :=
  s.length = t.length ∧ ∀ j, skelAt s j = skelAt t j

theorem SkelEq.refl {V : Type} (s : GState V) : SkelEq s s :=
  ⟨rfl, fun _ => rfl⟩

theorem SkelEq.trans {V : Type} {s t u : GState V}
    (h1 : SkelEq s t) (h2 : SkelEq t u) : SkelEq s u :=
  ⟨h1.1.trans h2.1, fun j => (h1.2 j).trans (h2.2 j)⟩

theorem skelEq_modifyNode {V : Type} (s : GState V) (i : Nat)
    (g : Node V -> Node V) (hg : ∀ n, skelOf (g n) = skelOf n) :
    SkelEq (modifyNode s i g) s := by
  refine ⟨length_modifyNode s i g, fun j => ?_⟩
  by_cases hj : i = j
  · subst hj
    cases h : s[i]? with
    | none =>
      unfold modifyNode
      rw [h]
    | some n =>
      unfold skelAt
      rw [getElem?_modifyNode_self s i g n h, h]
      simp [hg n]
  · unfold skelAt
    rw [getElem?_modifyNode_ne s i j g hj]

theorem skelEq_writeValue {V : Type} (s : GState V) (i : Nat) (v : V) :
    SkelEq (writeValue s i v) s :=
  skelEq_modifyNode s i _ (fun _ => rfl)

theorem skelOfKind_setDirtyK {V : Type} (k : NodeKind V) (b : Bool) :
    skelOfKind (setDirtyK k b) = skelOfKind k := by
  cases k <;> rfl

theorem skelEq_writeDirty {V : Type} (s : GState V) (i : Nat) (b : Bool) :
    SkelEq (writeDirty s i b) s :=
  skelEq_modifyNode s i _ (fun _ => by
    unfold skelOf
    simp [skelOfKind_setDirtyK])

theorem dirtyAt_writeValue {V : Type} (s : GState V) (i j : Nat) (v : V) :
    dirtyAt (writeValue s i v) j = dirtyAt s j := by
  by_cases hj : i = j
  · subst hj
    cases h : s[i]? with
    | none => simp [dirtyAt, writeValue, modifyNode, h]
    | some n =>
      simp [dirtyAt, writeValue, getElem?_modifyNode_self s i _ n h, h]
  · simp [dirtyAt, writeValue, getElem?_modifyNode_ne s i j _ hj]

theorem dirtyAt_writeDirty_ne {V : Type} (s : GState V) (i j : Nat)
    (b : Bool) (h : i ≠ j) : dirtyAt (writeDirty s i b) j = dirtyAt s j := by
  simp [dirtyAt, writeDirty, getElem?_modifyNode_ne s i j _ h]

theorem dirtyAt_writeDirty_self {V : Type} (s : GState V) (i : Nat)
    (b : Bool) (ep : BindingEvalPolicy) (fn : List V -> V) (args : List Nat)
    (d : Bool) (n : Node V) (h : s[i]? = some n)
    (hk : n.kind = NodeKind.exprK ep fn args d) :
    dirtyAt (writeDirty s i b) i = some b := by
  simp [dirtyAt, writeDirty, getElem?_modifyNode_self s i _ n h, setDirtyK,
    hk]


/-! Unfolding equations of the interpreter, one per command. -/

theorem run_zero {V : Type} (C : Ctx V) (c : Cmd V) (s : GState V) :
    run C 0 c s = ([C.dflt], s) := rfl

theorem run_setC {V : Type} (C : Ctx V) (f : Nat) (i : Nat) (v : V)
    (s : GState V) :
    run C (f + 1) (Cmd.setC i v) s =
      match s[i]? with
      | none => ([C.dflt], s)
      | some n =>
        if different_with C.ne C.eq n.comp_policy n.value v then
          run C f (Cmd.notifyC n.refs) (writeValue s i v)
        else ([C.dflt], s) := rfl

theorem run_notifyC_nil {V : Type} (C : Ctx V) (f : Nat) (s : GState V) :
    run C (f + 1) (Cmd.notifyC []) s = ([C.dflt], s) := rfl

theorem run_notifyC_cons {V : Type} (C : Ctx V) (f : Nat) (r : Nat)
    (rs : List Nat) (s : GState V) :
    run C (f + 1) (Cmd.notifyC (r :: rs)) s =
      run C f (Cmd.notifyC rs) (run C f (Cmd.updateC r) s).2 := rfl

theorem run_updateC {V : Type} (C : Ctx V) (f : Nat) (i : Nat)
    (s : GState V) :
    run C (f + 1) (Cmd.updateC i) s =
      match s[i]? with
      | none => ([C.dflt], s)
      | some n =>
        match n.kind with
        | NodeKind.valueK => ([C.dflt], s)
        | NodeKind.exprK ep fn args _ =>
          match ep with
          | BindingEvalPolicy.Instant =>
            let p := run C f (Cmd.argsC args) s
            run C f (Cmd.setC i (fn p.1)) p.2
          | BindingEvalPolicy.Lazy => ([C.dflt], writeDirty s i true)
          | BindingEvalPolicy.Count => ([C.dflt], s) := rfl

theorem run_getC {V : Type} (C : Ctx V) (f : Nat) (i : Nat) (s : GState V) :
    run C (f + 1) (Cmd.getC i) s =
      match s[i]? with
      | none => ([C.dflt], s)
      | some n =>
        match n.kind with
        | NodeKind.valueK => ([n.value], s)
        | NodeKind.exprK _ fn args dirty =>
          if dirty then
            let p := run C f (Cmd.argsC args) s
            let s2 := (run C f (Cmd.setC i (fn p.1)) p.2).2
            let s3 := writeDirty s2 i false
            ([getValueD C.dflt s3 i], s3)
          else ([n.value], s) := rfl

theorem run_argsC_nil {V : Type} (C : Ctx V) (f : Nat) (s : GState V) :
    run C (f + 1) (Cmd.argsC []) s = ([], s) := rfl

theorem run_argsC_cons {V : Type} (C : Ctx V) (f : Nat) (a : Nat)
    (as : List Nat) (s : GState V) :
    run C (f + 1) (Cmd.argsC (a :: as)) s =
      let p := run C f (Cmd.getC a) s
      let q := run C f (Cmd.argsC as) p.2
      (p.1 ++ q.1, q.2) := rfl

/-! Skeleton equivalence is respected by every accessor and by run. -/

theorem SkelEq.evalPolicyAt_eq {V : Type} {s t : GState V}
    (h : SkelEq s t) (j : Nat) : evalPolicyAt s j = evalPolicyAt t j := by
  unfold evalPolicyAt
  rw [h.2 j]

theorem SkelEq.argsAt_eq {V : Type} {s t : GState V}
    (h : SkelEq s t) (j : Nat) : argsAt s j = argsAt t j := by
  unfold argsAt
  rw [h.2 j]

theorem SkelEq.refsAt_eq {V : Type} {s t : GState V}
    (h : SkelEq s t) (j : Nat) : refsAt s j = refsAt t j := by
  unfold refsAt
  rw [h.2 j]

/-- Every interpreter step preserves the skeleton of every node: nothing in
set / update / get / dispatch changes a comp policy, an eval policy, a
function, an argument tuple, a subscriber list, or the number of nodes. -/
theorem skelEq_run {V : Type} (C : Ctx V) :
    ∀ (f : Nat) (c : Cmd V) (s : GState V), SkelEq (run C f c s).2 s := by
  intro f
  induction f with
  | zero => intro c s; exact SkelEq.refl s
  | succ f ih =>
    intro c s
    cases c with
    | setC i v =>
      cases h : s[i]? with
      | none =>
        simp only [run_setC, h]
        exact SkelEq.refl s
      | some n =>
        by_cases hd :
            different_with C.ne C.eq n.comp_policy n.value v = true
        · simp only [run_setC, h, hd, if_true]
          exact (ih _ _).trans (skelEq_writeValue s i v)
        · rw [Bool.not_eq_true] at hd
          simp only [run_setC, h, hd, Bool.false_eq_true, if_false]
          exact SkelEq.refl s
    | notifyC rs =>
      cases rs with
      | nil => exact SkelEq.refl s
      | cons r rest =>
        rw [run_notifyC_cons]
        exact (ih _ _).trans (ih _ _)
    | updateC i =>
      cases h : s[i]? with
      | none =>
        simp only [run_updateC, h]
        exact SkelEq.refl s
      | some n =>
        cases hk : n.kind with
        | valueK =>
          simp only [run_updateC, h, hk]
          exact SkelEq.refl s
        | exprK ep fn args d =>
          cases ep with
          | Instant =>
            simp only [run_updateC, h, hk]
            exact (ih _ _).trans (ih _ _)
          | Lazy =>
            simp only [run_updateC, h, hk]
            exact skelEq_writeDirty s i true
          | Count =>
            simp only [run_updateC, h, hk]
            exact SkelEq.refl s
    | getC i =>
      cases h : s[i]? with
      | none =>
        simp only [run_getC, h]
        exact SkelEq.refl s
      | some n =>
        cases hk : n.kind with
        | valueK =>
          simp only [run_getC, h, hk]
          exact SkelEq.refl s
        | exprK ep fn args d =>
          cases d with
          | true =>
            simp only [run_getC, h, hk, if_true]
            exact ((skelEq_writeDirty _ i false).trans (ih _ _)).trans
              (ih _ _)
          | false =>
            simp only [run_getC, h, hk, Bool.false_eq_true, if_false]
            exact SkelEq.refl s
    | argsC as =>
      cases as with
      | nil => exact SkelEq.refl s
      | cons a rest =>
        rw [run_argsC_cons]
        exact (ih _ _).trans (ih _ _)

/-- The getC command always produces exactly one value. -/
theorem run_getC_shape {V : Type} (C : Ctx V) :
    ∀ (f : Nat) (i : Nat) (s : GState V),
      ∃ (v : V) (t : GState V), run C f (Cmd.getC i) s = ([v], t) := by
  intro f i s
  cases f with
  | zero => exact ⟨C.dflt, s, rfl⟩
  | succ f =>
    cases h : s[i]? with
    | none =>
      simp only [run_getC, h]
      exact ⟨C.dflt, s, rfl⟩
    | some n =>
      cases hk : n.kind with
      | valueK =>
        simp only [run_getC, h, hk]
        exact ⟨n.value, s, rfl⟩
      | exprK ep fn args d =>
        cases d with
        | true =>
          simp only [run_getC, h, hk, if_true]
          exact ⟨_, _, rfl⟩
        | false =>
          simp only [run_getC, h, hk, Bool.false_eq_true, if_false]
          exact ⟨n.value, s, rfl⟩

/-- The getC command returns the pair computed by get. -/
theorem run_getC_eq_get {V : Type} (C : Ctx V) (f : Nat) (i : Nat)
    (s : GState V) :
    run C f (Cmd.getC i) s =
      ([(CppBinding.get C f s i).1], (CppBinding.get C f s i).2) := by
  obtain ⟨v, t, hvt⟩ := run_getC_shape C f i s
  rw [CppBinding.get, hvt]
  rfl

/-! Accessor lemmas for a node whose kind is known. -/

theorem argsAt_some {V : Type} {s : GState V} {j : Nat} {n : Node V}
    {ep : BindingEvalPolicy} {fn : List V → V} {args : List Nat} {d : Bool}
    (h : s[j]? = some n) (hk : n.kind = NodeKind.exprK ep fn args d) :
    argsAt s j = args := by
  simp [argsAt, skelAt, h, skelOf, skelOfKind, hk]

theorem evalPolicyAt_some {V : Type} {s : GState V} {j : Nat} {n : Node V}
    {ep : BindingEvalPolicy} {fn : List V → V} {args : List Nat} {d : Bool}
    (h : s[j]? = some n) (hk : n.kind = NodeKind.exprK ep fn args d) :
    evalPolicyAt s j = some ep := by
  simp [evalPolicyAt, skelAt, h, skelOf, skelOfKind, hk]

theorem dirtyAt_some {V : Type} {s : GState V} {j : Nat} {n : Node V}
    {ep : BindingEvalPolicy} {fn : List V → V} {args : List Nat} {d : Bool}
    (h : s[j]? = some n) (hk : n.kind = NodeKind.exprK ep fn args d) :
    dirtyAt s j = some d := by
  simp [dirtyAt, h, hk]

theorem refsAt_some {V : Type} {s : GState V} {j : Nat} {n : Node V}
    (h : s[j]? = some n) : refsAt s j = some n.refs := by
  simp [refsAt, skelAt, h, skelOf]

theorem valueAt_some {V : Type} {s : GState V} {j : Nat} {n : Node V}
    (h : s[j]? = some n) : valueAt s j = some n.value := by
  simp [valueAt, h]

/-! Invariant for the dirty flag of an Instant expression node that is not
an input of any node: no interpreter command that avoids reading it can
change its flag. -/

/-- Avoidance condition: the command is not a direct read of node i, and a
dispatch chain does not contain node i. Every other command is allowed. -/
def Avoids {V : Type} (i : Nat) : Cmd V → Prop
  | Cmd.getC j => j ≠ i
  | Cmd.argsC as => i ∉ as
  | _ => True

/-- Invariant: node i is an Instant-policy expression node, and no node of
the graph lists node i among its inputs (nothing downstream can pull it). -/
def Hinv {V : Type} (s : GState V) (i : Nat) : Prop :=
  evalPolicyAt s i = some BindingEvalPolicy.Instant ∧
  ∀ j, j < s.length → i ∉ argsAt s j

theorem Hinv_of_skelEq {V : Type} {s t : GState V} {i : Nat}
    (h : SkelEq s t) (hi : Hinv t i) : Hinv s i := by
  refine ⟨?_, fun j hj => ?_⟩
  · rw [h.evalPolicyAt_eq]
    exact hi.1
  · rw [h.argsAt_eq]
    exact hi.2 j (h.1 ▸ hj)

/-- No command avoiding node i changes the dirty flag of node i, as long as
node i is an Instant expression node that no node lists as an input. In
particular an arbitrary cascade of set and update calls anywhere in the
graph leaves the flag alone: only get on node i itself can clear it. -/
theorem dirty_preserved {V : Type} (C : Ctx V) (i : Nat) :
    ∀ (f : Nat) (c : Cmd V) (s : GState V), Hinv s i → Avoids i c →
      dirtyAt (run C f c s).2 i = dirtyAt s i := by
  intro f
  induction f with
  | zero => intro c s _ _; rfl
  | succ f ih =>
    intro c s hin hav
    cases c with
    | setC j v =>
      cases h : s[j]? with
      | none => simp only [run_setC, h]
      | some n =>
        by_cases hd :
            different_with C.ne C.eq n.comp_policy n.value v = true
        · simp only [run_setC, h, hd, if_true]
          have h1 : dirtyAt (writeValue s j v) i = dirtyAt s i :=
            dirtyAt_writeValue s j i v
          have hin1 : Hinv (writeValue s j v) i :=
            Hinv_of_skelEq (skelEq_writeValue s j v) hin
          rw [ih (Cmd.notifyC n.refs) _ hin1 trivial, h1]
        · rw [Bool.not_eq_true] at hd
          simp only [run_setC, h, hd, Bool.false_eq_true, if_false]
    | notifyC rs =>
      cases rs with
      | nil => rfl
      | cons r rest =>
        rw [run_notifyC_cons]
        have e1 := ih (Cmd.updateC r) s hin trivial
        have hin1 : Hinv (run C f (Cmd.updateC r) s).2 i :=
          Hinv_of_skelEq (skelEq_run C f _ s) hin
        rw [ih (Cmd.notifyC rest) _ hin1 trivial, e1]
    | updateC j =>
      cases h : s[j]? with
      | none => simp only [run_updateC, h]
      | some n =>
        cases hk : n.kind with
        | valueK => simp only [run_updateC, h, hk]
        | exprK ep fn args d =>
          have hjlen : j < s.length := (List.getElem?_eq_some_iff.mp h).1
          cases ep with
          | Instant =>
            simp only [run_updateC, h, hk]
            have hargs : i ∉ args := by
              have := hin.2 j hjlen
              rwa [argsAt_some h hk] at this
            have e1 := ih (Cmd.argsC args) s hin hargs
            have hin1 : Hinv (run C f (Cmd.argsC args) s).2 i :=
              Hinv_of_skelEq (skelEq_run C f _ s) hin
            have e2 := ih (Cmd.setC j (fn (run C f (Cmd.argsC args) s).1))
              _ hin1 trivial
            rw [e2, e1]
          | Lazy =>
            simp only [run_updateC, h, hk]
            have hne : j ≠ i := by
              intro he
              subst he
              have := evalPolicyAt_some h hk
              rw [hin.1] at this
              cases this
            exact dirtyAt_writeDirty_ne s j i true hne
          | Count => simp only [run_updateC, h, hk]
    | getC j =>
      have hj : j ≠ i := hav
      cases h : s[j]? with
      | none => simp only [run_getC, h]
      | some n =>
        cases hk : n.kind with
        | valueK => simp only [run_getC, h, hk]
        | exprK ep fn args d =>
          have hjlen : j < s.length := (List.getElem?_eq_some_iff.mp h).1
          cases d with
          | true =>
            simp only [run_getC, h, hk, if_true]
            have hargs : i ∉ args := by
              have := hin.2 j hjlen
              rwa [argsAt_some h hk] at this
            have e1 := ih (Cmd.argsC args) s hin hargs
            have hin1 : Hinv (run C f (Cmd.argsC args) s).2 i :=
              Hinv_of_skelEq (skelEq_run C f _ s) hin
            have e2 := ih (Cmd.setC j (fn (run C f (Cmd.argsC args) s).1))
              _ hin1 trivial
            rw [dirtyAt_writeDirty_ne _ j i false hj, e2, e1]
          | false => simp only [run_getC, h, hk, Bool.false_eq_true, if_false]
    | argsC as =>
      cases as with
      | nil => rfl
      | cons a rest =>
        have ha : a ≠ i := by
          intro he
          exact hav (he ▸ List.mem_cons_self a rest)
        have has : i ∉ rest := fun hm => hav (List.mem_cons_of_mem a hm)
        rw [run_argsC_cons]
        simp only []
        have e1 := ih (Cmd.getC a) s hin ha
        have hin1 : Hinv (run C f (Cmd.getC a) s).2 i :=
          Hinv_of_skelEq (skelEq_run C f _ s) hin
        have e2 := ih (Cmd.argsC rest) _ hin1 has
        rw [e2, e1]

/-- Notification of an empty subscriber list changes nothing, whatever the
fuel. -/
theorem notify_nil_state {V : Type} (C : Ctx V) (f : Nat) (t : GState V) :
    (run C f (Cmd.notifyC []) t).2 = t := by
  cases f <;> rfl

/-- Concrete value node used to witness the set contract. -/
def wNode : Node Int := ⟨1, BindingCompPolicy.NotEqual, [], NodeKind.valueK⟩

/-- Concrete value node with the Count sentinel comparison policy. -/
def cNode : Node Int := ⟨0, BindingCompPolicy.Count, [], NodeKind.valueK⟩

/-- C1: set(v) on node i stores v and then runs update() on every
subscriber in registration order exactly when different_with judges v
different from the stored value; otherwise the whole graph state, the
subscriber list and all other node state included, is unchanged and nobody
is notified. The last two conjuncts pin down the notification loop: one
update() per subscriber, front to back. -/
theorem set_spec {V : Type} (C : Ctx V) (f : Nat) (s : GState V) (i : Nat)
    (v : V) (n : Node V) (h : s[i]? = some n) :
    (different_with C.ne C.eq n.comp_policy n.value v = true →
        CppBinding.set C (f + 1) s i v =
          (run C f (Cmd.notifyC n.refs) (writeValue s i v)).2)
    ∧ (different_with C.ne C.eq n.comp_policy n.value v = false →
        CppBinding.set C (f + 1) s i v = s)
    ∧ (∀ (g : Nat) (t : GState V) (r : Nat) (rs : List Nat),
        (run C (g + 1) (Cmd.notifyC (r :: rs)) t).2 =
          (run C g (Cmd.notifyC rs) (CppBinding.update C g t r)).2)
    ∧ (∀ (g : Nat) (t : GState V),
        (run C (g + 1) (Cmd.notifyC []) t).2 = t) := by
  refine ⟨fun hd => ?_, fun hd => ?_, fun g t r rs => ?_, fun g t => rfl⟩
  · simp only [CppBinding.set, run_setC, h, hd, if_true]
  · simp only [CppBinding.set, run_setC, h, hd, Bool.false_eq_true,
      if_false]
  · rw [run_notifyC_cons]
    rfl

/-- Witness for C1: a one-node graph holding 1; setting 2 under NotEqual
stores and enters the (empty) notification loop. -/
theorem set_spec_witness :
    CppBinding.set stdCtx 3 [wNode] 0 2 =
      (run stdCtx 2 (Cmd.notifyC wNode.refs) (writeValue [wNode] 0 2)).2 :=
  (set_spec stdCtx 2 [wNode] 0 2 wNode rfl).1 (by decide)

/-- C5: different_with returns the inequality comparison under NotEqual,
the negated equality comparison under Equal, and true under Always and
under the Count sentinel; consequently a set on a node whose comparison
policy is Count always stores and notifies. -/
theorem different_with_spec {V : Type} :
    ∀ (ne eq : V → V → Bool) (a b : V),
      different_with ne eq BindingCompPolicy.NotEqual a b = ne a b
      ∧ different_with ne eq BindingCompPolicy.Equal a b = !(eq a b)
      ∧ different_with ne eq BindingCompPolicy.Always a b = true
      ∧ different_with ne eq BindingCompPolicy.Count a b = true
      ∧ (∀ (C : Ctx V) (f : Nat) (s : GState V) (i : Nat) (v : V)
          (n : Node V), s[i]? = some n →
          n.comp_policy = BindingCompPolicy.Count →
          CppBinding.set C (f + 1) s i v =
            (run C f (Cmd.notifyC n.refs) (writeValue s i v)).2) := by
  intro ne eq a b
  refine ⟨rfl, rfl, rfl, rfl, fun C f s i v n h hcp => ?_⟩
  have hd : different_with C.ne C.eq n.comp_policy n.value v = true := by
    rw [hcp]
    rfl
  simp only [CppBinding.set, run_setC, h, hd, if_true]

/-- Witness for C5: a Count-policy node set to its own current value still
stores and notifies. -/
theorem different_with_spec_witness :
    CppBinding.set stdCtx 3 [cNode] 0 0 =
      (run stdCtx 2 (Cmd.notifyC cNode.refs) (writeValue [cNode] 0 0)).2 :=
  (different_with_spec stdCtx.ne stdCtx.eq 0 0).2.2.2.2 stdCtx 2 [cNode] 0 0
    cNode rfl rfl

/-- C2: on a Lazy expression node with the dirty flag raised, get()
recomputes by reading every input through its own get() in input order
(second and third conjuncts), applies the stored function positionally,
stores the result through the same set path as a value node, clears the
dirty flag, and returns the then-current cached value. -/
theorem lazy_get_spec {V : Type} (C : Ctx V) (f : Nat) (s : GState V)
    (i : Nat) (n : Node V) (fn : List V → V) (args : List Nat)
    (h : s[i]? = some n)
    (hk : n.kind = NodeKind.exprK BindingEvalPolicy.Lazy fn args true) :
    (CppBinding.get C (f + 1) s i =
      (getValueD C.dflt
          (writeDirty
            (CppBinding.set C f (run C f (Cmd.argsC args) s).2 i
              (fn (run C f (Cmd.argsC args) s).1)) i false) i,
        writeDirty
          (CppBinding.set C f (run C f (Cmd.argsC args) s).2 i
            (fn (run C f (Cmd.argsC args) s).1)) i false))
    ∧ (∀ (g : Nat) (t : GState V), run C (g + 1) (Cmd.argsC []) t = ([], t))
    ∧ (∀ (g : Nat) (t : GState V) (a : Nat) (as : List Nat),
        run C (g + 1) (Cmd.argsC (a :: as)) t =
          ((CppBinding.get C g t a).1 ::
              (run C g (Cmd.argsC as) (CppBinding.get C g t a).2).1,
            (run C g (Cmd.argsC as) (CppBinding.get C g t a).2).2)) := by
  refine ⟨?_, fun g t => rfl, fun g t a as => ?_⟩
  · simp only [CppBinding.get, run_getC, h, hk, if_true, CppBinding.set]
    rfl
  · rw [run_argsC_cons, run_getC_eq_get]
    rfl

/-- Witness for C2: the lazy demo node after the invalidating set. -/
theorem lazy_get_spec_witness :
    CppBinding.get stdCtx 16 lzS6 2 =
      (getValueD stdCtx.dflt
          (writeDirty
            (CppBinding.set stdCtx 15 (run stdCtx 15 (Cmd.argsC [0, 1]) lzS6).2 2
              (addFn (run stdCtx 15 (Cmd.argsC [0, 1]) lzS6).1)) 2 false) 2,
        writeDirty
          (CppBinding.set stdCtx 15 (run stdCtx 15 (Cmd.argsC [0, 1]) lzS6).2 2
            (addFn (run stdCtx 15 (Cmd.argsC [0, 1]) lzS6).1)) 2 false) :=
  (lazy_get_spec stdCtx 15 lzS6 2
    ⟨3, BindingCompPolicy.NotEqual, [],
      NodeKind.exprK BindingEvalPolicy.Lazy addFn [0, 1] true⟩
    addFn [0, 1] rfl rfl).1

/-- C3 counterexample: the spec sentence says an Instant-policy get()
leaves the node state unchanged even on the first call after construction,
but the constructor leaves the dirty flag raised and the first get() flips
it to false (recomputing through set on the way). -/
theorem instant_first_get_changes_state :
    dirtyAt lzS3 2 = some true ∧
      dirtyAt (CppBinding.get stdCtx 16 lzS3 2).2 2 = some false := by
  decide

/-- C3 amended: on an Instant expression node whose dirty flag is already
clear, get() returns the cached value and leaves the whole graph state
unchanged: no recomputation, no function call, no set. The first get()
after construction is excluded: there the flag is still raised. -/
theorem instant_clean_get_spec {V : Type} (C : Ctx V) (f : Nat)
    (s : GState V) (i : Nat)
    (hp : evalPolicyAt s i = some BindingEvalPolicy.Instant)
    (hd : dirtyAt s i = some false) :
    CppBinding.get C (f + 1) s i = (getValueD C.dflt s i, s) := by
  cases h : s[i]? with
  | none => simp [evalPolicyAt, skelAt, h] at hp
  | some n =>
    cases hk : n.kind with
    | valueK => simp [evalPolicyAt, skelAt, h, skelOf, skelOfKind, hk] at hp
    | exprK ep fn args d =>
      have hdd := dirtyAt_some h hk
      rw [hd] at hdd
      have hd0 : d = false := (Option.some.inj hdd).symm
      subst hd0
      simp only [CppBinding.get, run_getC, h, hk, Bool.false_eq_true,
        if_false]
      simp [getValueD, valueAt, h]

/-- Witness for C3: the Instant demo node after its first read. -/
theorem instant_clean_get_spec_witness :
    evalPolicyAt lzS4 2 = some BindingEvalPolicy.Instant ∧
      dirtyAt lzS4 2 = some false ∧
      CppBinding.get stdCtx 8 lzS4 2 = (getValueD stdCtx.dflt lzS4 2, lzS4) :=
  ⟨by decide, by decide,
    instant_clean_get_spec stdCtx 7 lzS4 2 (by decide) (by decide)⟩

/-- C4: in the lazy demo scenario (a=1, b=2, e=a+b, first read 3, policy
switched to Lazy, then a.set(3)): the cached value of e is still 3 and its
dirty flag is raised right after the set and before any read; the following
e.get() returns 5 and leaves the flag clear. -/
theorem lazy_scenario_spec :
    lzRead1.1 = 3 ∧ valueAt lzS6 2 = some 3 ∧ dirtyAt lzS6 2 = some true
      ∧ lzRead2.1 = 5 ∧ dirtyAt lzRead2.2 2 = some false := by
  decide

/-- C6 counterexample: in the diamond scenario (a=1, b=2, c=3,
e=(a+b)+(a+c) under Instant) the initial e.get() returns 7, not the 6 the
spec sentence states. -/
theorem diamond_initial_value :
    dmRead1.1 = 7 ∧ dmRead1.1 ≠ 6 := by
  decide

/-- C6 amended: the initial e.get() of the diamond returns 7, and after
a.set(5) e.get() returns 15: the single mutation of the shared leaf fans
out through both intermediate nodes and reconverges with no double count
and no missed update. -/
theorem diamond_scenario_spec :
    dmRead1.1 = 7 ∧ dmRead2.1 = 15 := by
  decide

/-- A clean expression node answers get() from its cache and changes
nothing, whatever its evaluation policy. -/
theorem get_clean {V : Type} (C : Ctx V) (f : Nat) (s : GState V) (i : Nat)
    (n : Node V) {ep : BindingEvalPolicy} {fn : List V → V}
    {args : List Nat} (h : s[i]? = some n)
    (hk : n.kind = NodeKind.exprK ep fn args false) :
    CppBinding.get C (f + 1) s i = (n.value, s) := by
  simp only [CppBinding.get, run_getC, h, hk, Bool.false_eq_true, if_false]
  rfl

/-- A dirty expression node recomputes through dispatch and set, clears the
flag, and returns the then-current cache, whatever its evaluation policy. -/
theorem get_dirty {V : Type} (C : Ctx V) (f : Nat) (s : GState V) (i : Nat)
    (n : Node V) {ep : BindingEvalPolicy} {fn : List V → V}
    {args : List Nat} (h : s[i]? = some n)
    (hk : n.kind = NodeKind.exprK ep fn args true) :
    CppBinding.get C (f + 1) s i =
      (getValueD C.dflt
          (writeDirty
            (run C f (Cmd.setC i (fn (run C f (Cmd.argsC args) s).1))
              (run C f (Cmd.argsC args) s).2).2 i false) i,
        writeDirty
          (run C f (Cmd.setC i (fn (run C f (Cmd.argsC args) s).1))
            (run C f (Cmd.argsC args) s).2).2 i false) := by
  simp only [CppBinding.get, run_getC, h, hk, if_true]
  rfl

/-- A skeleton-equal state keeps an expression node an expression node with
the same policy, function and inputs; only the dirty flag may differ. -/
theorem exists_expr_of_skel {V : Type} {s t : GState V} {i : Nat}
    {n : Node V} {ep : BindingEvalPolicy} {fn : List V → V}
    {args : List Nat} {d : Bool} (hsk : SkelEq t s) (h : s[i]? = some n)
    (hk : n.kind = NodeKind.exprK ep fn args d) :
    ∃ (m : Node V) (d2 : Bool), t[i]? = some m ∧
      m.kind = NodeKind.exprK ep fn args d2 := by
  have hs := hsk.2 i
  rw [skelAt, skelAt, h] at hs
  cases ht : t[i]? with
  | none =>
    rw [ht] at hs
    simp at hs
  | some m =>
    rw [ht] at hs
    simp only [Option.map_some'] at hs
    have hkind : skelOfKind m.kind = skelOfKind n.kind :=
      congrArg NodeSkel.kindS (Option.some.inj hs)
    rw [hk] at hkind
    cases hmk : m.kind with
    | valueK =>
      rw [hmk] at hkind
      simp [skelOfKind] at hkind
    | exprK e2 f2 a2 d2 =>
      rw [hmk] at hkind
      simp only [skelOfKind, Option.some.injEq, Prod.mk.injEq] at hkind
      obtain ⟨he, hf, ha⟩ := hkind
      exact ⟨m, d2, rfl, by rw [hmk, he, hf, ha]⟩

/-! Destructor lemmas for C7. -/

/-- remove_if(ref == this) leaves no occurrence of the removed node. -/
theorem not_mem_removeRef (l : List Nat) (i : Nat) : i ∉ removeRef l i := by
  intro hm
  have := (List.mem_filter.mp hm).2
  simp at this

theorem refsAt_uninstall_self {V : Type} (st : GState V) (i a : Nat)
    (l : List Nat) (hl : refsAt (uninstall_ref st i a) a = some l) :
    i ∉ l := by
  cases h : st[a]? with
  | none =>
    have he : uninstall_ref st i a = st := by
      unfold uninstall_ref modifyNode
      rw [h]
    rw [he, refsAt, skelAt, h] at hl
    cases hl
  | some n =>
    have h2 : (uninstall_ref st i a)[a]? =
        some { n with refs := removeRef n.refs i } :=
      getElem?_modifyNode_self st a _ n h
    rw [refsAt, skelAt, h2] at hl
    simp only [Option.map_some', skelOf, Option.some.injEq] at hl
    subst hl
    exact not_mem_removeRef n.refs i

theorem refsAt_uninstall_pres {V : Type} (st : GState V) (i a b : Nat)
    (hq : ∀ l, refsAt st a = some l → i ∉ l) :
    ∀ l, refsAt (uninstall_ref st i b) a = some l → i ∉ l := by
  by_cases hab : b = a
  · subst hab
    exact fun l hl => refsAt_uninstall_self st i b l hl
  · intro l hl
    rw [refsAt, skelAt, uninstall_ref, getElem?_modifyNode_ne st b a _ hab]
      at hl
    exact hq l hl

theorem fold_uninstall_pres {V : Type} (i a : Nat) :
    ∀ (bs : List Nat) (st : GState V),
      (∀ l, refsAt st a = some l → i ∉ l) →
      ∀ l, refsAt (bs.foldl (fun t x => uninstall_ref t i x) st) a = some l
        → i ∉ l := by
  intro bs
  induction bs with
  | nil => intro st hq; exact hq
  | cons b rest ih =>
    intro st hq
    simp only [List.foldl_cons]
    exact ih (uninstall_ref st i b) (refsAt_uninstall_pres st i a b hq)

theorem fold_uninstall_kill {V : Type} (i : Nat) :
    ∀ (bs : List Nat) (st : GState V) (a : Nat), a ∈ bs →
      ∀ l, refsAt (bs.foldl (fun t x => uninstall_ref t i x) st) a = some l
        → i ∉ l := by
  intro bs
  induction bs with
  | nil => intro st a ha; cases ha
  | cons b rest ih =>
    intro st a ha
    simp only [List.foldl_cons]
    rcases List.mem_cons.mp ha with hab | har
    · subst hab
      exact fold_uninstall_pres i a rest (uninstall_ref st i a)
        (fun l hl => refsAt_uninstall_self st i a l hl)
    · exact ih (uninstall_ref st i b) a har

/-- C7: destroying an expression node runs uninstall_ref on every input, so
afterwards no subscriber list of any input contains the destroyed node (a
later set on an input cannot notify it); and removal by remove_if is
idempotent: removing an absent node leaves the list unchanged. -/
theorem destruct_spec {V : Type} (s : GState V) (i : Nat) :
    (∀ a, a ∈ argsAt s i →
        ∀ l, refsAt (destructExpr s i) a = some l → i ∉ l)
    ∧ (∀ (l : List Nat) (j : Nat), j ∉ l → removeRef l j = l) := by
  constructor
  · intro a ha l hl
    exact fold_uninstall_kill i (argsAt s i) s a ha l hl
  · intro l j hj
    unfold removeRef
    rw [List.filter_eq_self]
    intro a hal
    have hne : a ≠ j := fun he => hj (he ▸ hal)
    simp [hne]

/-- Witness for C7: destroying the demo expression node scrubs it from the
subscriber list of leaf a, and removing it from a list not containing it is
the identity. -/
theorem destruct_spec_witness :
    (0 ∈ argsAt lzS3 2) ∧ refsAt (destructExpr lzS3 2) 0 = some [] ∧
      (2 : Nat) ∉ ([] : List Nat) ∧ (2 : Nat) ∉ ([0, 1] : List Nat) ∧
      removeRef [0, 1] 2 = [0, 1] :=
  ⟨by decide, by decide,
    (destruct_spec lzS3 2).1 0 (by decide) [] (by decide),
    by decide,
    (destruct_spec lzS3 2).2 [0, 1] 2 (by decide)⟩

/-- C8: the constructor raises the dirty flag under Instant policy; as long
as the node is not an input of any node (so nothing can pull it through
get), no set anywhere in the graph touches the flag, update() included;
and the first get() on the node recomputes once through the set path and
clears the flag. -/
theorem instant_ctor_dirty_spec {V : Type} (C : Ctx V) (s : GState V)
    (i : Nat) (hp : evalPolicyAt s i = some BindingEvalPolicy.Instant)
    (hd : dirtyAt s i = some true)
    (hna : ∀ j, j < s.length → i ∉ argsAt s j) :
    ctorDirty BindingEvalPolicy.Instant = true
    ∧ (∀ (f : Nat) (j : Nat) (v : V),
        dirtyAt (CppBinding.set C f s j v) i = some true)
    ∧ (∀ (f : Nat), dirtyAt (CppBinding.get C (f + 1) s i).2 i = some false)
    := by
  refine ⟨rfl, fun f j v => ?_, fun f => ?_⟩
  · rw [CppBinding.set,
      dirty_preserved C i f (Cmd.setC j v) s ⟨hp, hna⟩ trivial]
    exact hd
  · cases h : s[i]? with
    | none => simp [evalPolicyAt, skelAt, h] at hp
    | some n =>
      cases hk : n.kind with
      | valueK =>
        simp [evalPolicyAt, skelAt, h, skelOf, skelOfKind, hk] at hp
      | exprK ep fn args d =>
        have hdd := dirtyAt_some h hk
        rw [hd] at hdd
        have hdt : d = true := (Option.some.inj hdd).symm
        subst hdt
        rw [get_dirty C f s i n h hk]
        have hsk : SkelEq
            (run C f (Cmd.setC i (fn (run C f (Cmd.argsC args) s).1))
              (run C f (Cmd.argsC args) s).2).2 s :=
          (skelEq_run C f _ _).trans (skelEq_run C f _ s)
        obtain ⟨m, d2, hm, hmk⟩ := exists_expr_of_skel hsk h hk
        exact dirtyAt_writeDirty_self _ i false ep fn args d2 m hm hmk

/-- Witness for C8: the freshly constructed demo expression node, with a
set on leaf a that does not touch its raised flag. -/
theorem instant_ctor_dirty_spec_witness :
    ctorDirty BindingEvalPolicy.Instant = true ∧
      dirtyAt (CppBinding.set stdCtx 5 lzS3 0 9) 2 = some true :=
  ⟨(instant_ctor_dirty_spec stdCtx lzS3 2 (by decide) (by decide)
      (by decide)).1,
    (instant_ctor_dirty_spec stdCtx lzS3 2 (by decide) (by decide)
      (by decide)).2.1 5 0 9⟩

/-- C9: a freshly constructed value node answers get() with its initial
value, although construction routes the value through set and the default
NotEqual comparison skips the store when the value equals the
value-initialized default: the skip is harmless because the stored default
then already equals the requested value (the hypothesis states that the
inequality operator only answers false on equal values). -/
theorem value_ctor_spec {V : Type} (C : Ctx V) (f g : Nat) (s : GState V)
    (v : V) (hne : ∀ a b, C.ne a b = false → a = b) :
    (CppBinding.get C (g + 1) (mkValue C (f + 1) s v) s.length).1 = v := by
  have h0 : (s ++ [newValueNode C])[s.length]? = some (newValueNode C) :=
    List.getElem?_concat_length s (newValueNode C)
  have hrefs : (newValueNode C).refs = [] := rfl
  have hknd : (newValueNode C).kind = NodeKind.valueK := rfl
  have hval : (newValueNode C).value = C.dflt := rfl
  rw [mkValue, CppBinding.set]
  by_cases hb : C.ne C.dflt v = true
  · have hdw : different_with C.ne C.eq (newValueNode C).comp_policy
        (newValueNode C).value v = true := hb
    simp only [run_setC, h0, hdw, if_true, hrefs, notify_nil_state]
    have h1 : (writeValue (s ++ [newValueNode C]) s.length v)[s.length]? =
        some { newValueNode C with value := v } :=
      getElem?_modifyNode_self _ s.length _ (newValueNode C) h0
    have hknd1 : ({ newValueNode C with value := v } : Node V).kind =
        NodeKind.valueK := rfl
    have hval1 : ({ newValueNode C with value := v } : Node V).value = v :=
      rfl
    simp only [CppBinding.get, run_getC, h1, hknd1, hval1]
    rfl
  · rw [Bool.not_eq_true] at hb
    have heq : C.dflt = v := hne C.dflt v hb
    have hdw : different_with C.ne C.eq (newValueNode C).comp_policy
        (newValueNode C).value v = false := hb
    simp only [run_setC, h0, hdw, Bool.false_eq_true, if_false]
    simp only [CppBinding.get, run_getC, h0, hknd, hval]
    exact heq

/-- Witness for C9: an int leaf constructed with 1 reads back 1; the
builtin int inequality only answers false on equal values. -/
theorem value_ctor_spec_witness :
    (∀ a b : Int, stdCtx.ne a b = false → a = b) ∧
      (CppBinding.get stdCtx 4 (mkValue stdCtx 4 [] 1) 0).1 = 1 :=
  ⟨fun _ _ h => not_not.mp (of_decide_eq_false h),
    value_ctor_spec stdCtx 3 3 [] 1
      (fun _ _ h => not_not.mp (of_decide_eq_false h))⟩

/-- C10: on a Lazy expression node, get() is idempotent: a second get()
with no intervening change returns the same value and leaves the entire
graph state unchanged, because the first get() left the dirty flag clear
(or found it already clear). -/
theorem lazy_get_idem {V : Type} (C : Ctx V) (f g : Nat) (s : GState V)
    (i : Nat) (hp : evalPolicyAt s i = some BindingEvalPolicy.Lazy) :
    CppBinding.get C (g + 1) (CppBinding.get C (f + 1) s i).2 i =
      ((CppBinding.get C (f + 1) s i).1, (CppBinding.get C (f + 1) s i).2)
    := by
  cases h : s[i]? with
  | none => simp [evalPolicyAt, skelAt, h] at hp
  | some n =>
    cases hk : n.kind with
    | valueK => simp [evalPolicyAt, skelAt, h, skelOf, skelOfKind, hk] at hp
    | exprK ep fn args d =>
      cases d with
      | false =>
        rw [get_clean C f s i n h hk]
        exact get_clean C g s i n h hk
      | true =>
        simp only [get_dirty C f s i n h hk]
        have hsk : SkelEq
            (run C f (Cmd.setC i (fn (run C f (Cmd.argsC args) s).1))
              (run C f (Cmd.argsC args) s).2).2 s :=
          (skelEq_run C f _ _).trans (skelEq_run C f _ s)
        obtain ⟨m, d2, hm, hmk⟩ := exists_expr_of_skel hsk h hk
        have h3 : (writeDirty
            (run C f (Cmd.setC i (fn (run C f (Cmd.argsC args) s).1))
              (run C f (Cmd.argsC args) s).2).2 i false)[i]? =
            some { m with kind := setDirtyK m.kind false } :=
          getElem?_modifyNode_self _ i _ m hm
        have hm3k : ({ m with kind := setDirtyK m.kind false} : Node V).kind
            = NodeKind.exprK ep fn args false := by
          show setDirtyK m.kind false = NodeKind.exprK ep fn args false
          rw [hmk]
          rfl
        have hv : getValueD C.dflt
            (writeDirty
              (run C f (Cmd.setC i (fn (run C f (Cmd.argsC args) s).1))
                (run C f (Cmd.argsC args) s).2).2 i false) i = m.value := by
          rw [getValueD, valueAt_some h3]
          rfl
        rw [get_clean C g _ i _ h3 hm3k, hv]

/-- Witness for C10: the demo node right after its policy switch to Lazy. -/
theorem lazy_get_idem_witness :
    evalPolicyAt lzS5 2 = some BindingEvalPolicy.Lazy ∧
      CppBinding.get stdCtx 8 (CppBinding.get stdCtx 8 lzS5 2).2 2 =
        ((CppBinding.get stdCtx 8 lzS5 2).1,
          (CppBinding.get stdCtx 8 lzS5 2).2) :=
  ⟨by decide, lazy_get_idem stdCtx 7 7 lzS5 2 (by decide)⟩


end CppBinding
